import Mathlib

/-!
# Native simulator offloaded sockets: mid-layer header `drivers/net/nsos.h`

A verification development over a shallow embedding of the header.

* The only function with a body in the header is `nsos_socket_flag_convert`
  (lines 130-137).  It is embedded as a pure function returning the two flag
  words it updates through pointers.
* C `int` values are mathematical integers; `&`, `|` and `~` are the
  two's-complement operations on them.  They never overflow: the 32-bit range is
  closed under them (`nsos_socket_flag_convert_in_range`), so no reduction
  modulo `2 ^ 32` is needed.
* The address codec and the readiness bridge have no body in the header (only the
  `struct` declarations and the prototypes are there).  Their definitions below
  are marked as modelled from the specification.
-/

namespace Nsos

/-! ## Definitions -/

/-! ### C integer operators -/

/-- C `x & y` on `int`: bitwise and of the two's-complement representations.
Negative numbers are `Int.negSucc m`, whose bits are the complement of the bits of `m`. -/
def int_and : Int → Int → Int
  | Int.ofNat m, Int.ofNat n => Int.ofNat (m &&& n)
  | Int.ofNat m, Int.negSucc n => Int.ofNat (m ^^^ (m &&& n))
  | Int.negSucc m, Int.ofNat n => Int.ofNat (n ^^^ (n &&& m))
  | Int.negSucc m, Int.negSucc n => Int.negSucc (m ||| n)

/-- C `x | y` on `int`: bitwise or of the two's-complement representations. -/
def int_or : Int → Int → Int
  | Int.ofNat m, Int.ofNat n => Int.ofNat (m ||| n)
  | Int.ofNat m, Int.negSucc n => Int.negSucc (n ^^^ (n &&& m))
  | Int.negSucc m, Int.ofNat n => Int.negSucc (m ^^^ (m &&& n))
  | Int.negSucc m, Int.negSucc n => Int.negSucc (m &&& n)

/-- C `~x` on `int`: bitwise complement, that is `-x - 1`. -/
def int_not (x : Int) : Int := ~~~x

/-- The values of a 32-bit C `int`. -/
def in_int_range (x : Int) : Prop := -(2 ^ 31) ≤ x ∧ x < 2 ^ 31

instance (x : Int) : Decidable (in_int_range x) := by
  unfold in_int_range
  infer_instance

/-- The `int` whose 32-bit pattern has bit `k` set and no other bit (`k < 32`);
bit 31 is the sign bit, so that value is `INT_MIN`. -/
def int_bit (k : Nat) : Int := if k = 31 then -(2 ^ 31) else 2 ^ k

/-! ### Constants of the header -/

/-- Header line 14. -/
def NSOS_MID_PF_UNSPEC : Nat := 0
/-- Header line 15. -/
def NSOS_MID_PF_INET : Nat := 1
/-- Header line 16. -/
def NSOS_MID_PF_INET6 : Nat := 2
/-- Header line 17. -/
def NSOS_MID_PF_UNIX : Nat := 6
/-- Header line 18. -/
def NSOS_MID_PF_PACKET : Nat := 3

/-- Header line 21. -/
def NSOS_MID_AF_UNSPEC : Nat := NSOS_MID_PF_UNSPEC
/-- Header line 22. -/
def NSOS_MID_AF_INET : Nat := NSOS_MID_PF_INET
/-- Header line 23. -/
def NSOS_MID_AF_INET6 : Nat := NSOS_MID_PF_INET6
/-- Header line 24. -/
def NSOS_MID_AF_UNIX : Nat := NSOS_MID_PF_UNIX
/-- Header line 25. -/
def NSOS_MID_AF_PACKET : Nat := NSOS_MID_PF_PACKET

/-- Header line 48. -/
def NSOS_MID_MSG_PEEK : Int := 0x02
/-- Header line 49. -/
def NSOS_MID_MSG_TRUNC : Int := 0x20
/-- Header line 50. -/
def NSOS_MID_MSG_DONTWAIT : Int := 0x40
/-- Header line 51. -/
def NSOS_MID_MSG_WAITALL : Int := 0x100

/-- Header line 71: the size of `sun_path` in `struct nsos_mid_sockaddr_un`. -/
def UNIX_PATH_MAX : Nat := 108

/-- Header line 84: the size of `sll_addr` in `struct nsos_mid_sockaddr_ll` (the literal `8`
of the array declarator). -/
def SLL_ADDR_MAX : Nat := 8

/-! ### Flag conversion -/

/-- Header lines 130-137.  The two `int *` arguments are distinct objects; the function
returns the pair `(*flags_a, *flags_b)` after the call.
```
if ((*flags_a) & flag_a) { *flags_a &= ~flag_a; *flags_b |= flag_b; }
``` -/
def nsos_socket_flag_convert (flags_a flag_a flags_b flag_b : Int) : Int × Int :=
  if int_and flags_a flag_a ≠ 0 then
    (int_and flags_a (int_not flag_a), int_or flags_b flag_b)
  else
    (flags_a, flags_b)

/-- One call of `nsos_socket_flag_convert` for every `(flag_a, flag_b)` pair of a table, in
the order of the table, on the same two words. -/
def flag_convert_all : List (Int × Int) → Int → Int → Int × Int
  | [], flags_a, flags_b => (flags_a, flags_b)
  | (flag_a, flag_b) :: rest, flags_a, flags_b =>
      flag_convert_all rest
        (nsos_socket_flag_convert flags_a flag_a flags_b flag_b).1
        (nsos_socket_flag_convert flags_a flag_a flags_b flag_b).2

/-- The union `flag_a_1 | ... | flag_a_n` of the source masks of a table. -/
def source_mask : List (Int × Int) → Int
  | [] => 0
  | (flag_a, _) :: rest => int_or flag_a (source_mask rest)

/-- Translation of a mid-layer flag word to the host: `nsos_socket_flag_convert` for every
`(mid-layer bit, host bit)` pair of the table, from `f` into a host word that starts at `0`.
The table is a parameter, the host's flag values are not in the header. -/
def translate_to_host (table : List (Int × Int)) (f : Int) : Int :=
  (flag_convert_all table f 0).2

/-- Translation of a host flag word to the mid-layer: `nsos_socket_flag_convert` for every
pair of the table with the roles of the two words and of the two bits swapped, into a
mid-layer word that starts at `0`. -/
def translate_to_mid (table : List (Int × Int)) (h : Int) : Int :=
  (flag_convert_all (table.map Prod.swap) h 0).2

/-- The table of the four mid-layer message flags of the header, each paired with a host
flag value. -/
def nsos_msg_table (h_peek h_trunc h_dontwait h_waitall : Int) : List (Int × Int) :=
  [(NSOS_MID_MSG_PEEK, h_peek), (NSOS_MID_MSG_TRUNC, h_trunc),
   (NSOS_MID_MSG_DONTWAIT, h_dontwait), (NSOS_MID_MSG_WAITALL, h_waitall)]

/-- The flag word with the four mid-layer message flags set. -/
def nsos_msg_supported : Int :=
  int_or (int_or (int_or NSOS_MID_MSG_PEEK NSOS_MID_MSG_TRUNC) NSOS_MID_MSG_DONTWAIT)
    NSOS_MID_MSG_WAITALL

/-! ### Address codec -/

deriving instance DecidableEq for Except

/-- Byte order of a multi-byte field in memory. -/
inductive byte_order where
  | little
  | big
  deriving DecidableEq, Repr

/-- Modelled from the spec: the two translation-detected errors of the address codec in the
error taxonomy of section 7.  The header has no error type. -/
inductive codec_error where
  | unsupported_family
  | address_length_mismatch
  deriving DecidableEq, Repr

/-- Modelled from the spec: the protocol-independent address of section 3, a tagged union
over unspecified, IPv4, IPv6, Unix-domain and link-layer addresses.  Each variant carries the
fields of the matching `struct` of the header (lines 58-85) other than the family tag, as
values: a port number, a 32-bit address, sixteen address bytes, a scope id, a path (a string
of bytes), and for the link layer the protocol, the interface index (a C `int`), the hardware
type, the packet type and the hardware address, whose length is `sll_halen`. -/
inductive mid_address where
  | unspec
  | inet (port : Nat) (addr : Nat)
  | inet6 (port : Nat) (addr : List Nat) (scope_id : Nat)
  | unix (path : List Nat)
  | packet (protocol : Nat) (ifindex : Int) (hatype : Nat) (pkttype : Nat) (addr : List Nat)
  deriving DecidableEq, Repr

/-- The two bytes of a `uint16_t` in the given byte order. -/
def put_u16 : byte_order → Nat → List Nat
  | .big, x => [x / 256 % 256, x % 256]
  | .little, x => [x % 256, x / 256 % 256]

/-- The four bytes of a `uint32_t` in the given byte order. -/
def put_u32 : byte_order → Nat → List Nat
  | .big, x => [x / 16777216 % 256, x / 65536 % 256, x / 256 % 256, x % 256]
  | .little, x => [x % 256, x / 256 % 256, x / 65536 % 256, x / 16777216 % 256]

/-- The four bytes of a 32-bit `int` in two's complement, in the given byte order. -/
def put_i32 (e : byte_order) (x : Int) : List Nat :=
  put_u32 e (x % 4294967296).toNat

/-- The `uint16_t` at the head of a byte sequence. -/
def get_u16 : byte_order → List Nat → Nat
  | .big, b0 :: b1 :: _ => b0 * 256 + b1
  | .little, b0 :: b1 :: _ => b1 * 256 + b0
  | _, _ => 0

/-- The `uint32_t` at the head of a byte sequence. -/
def get_u32 : byte_order → List Nat → Nat
  | .big, b0 :: b1 :: b2 :: b3 :: _ => b0 * 16777216 + b1 * 65536 + b2 * 256 + b3
  | .little, b0 :: b1 :: b2 :: b3 :: _ => b3 * 16777216 + b2 * 65536 + b1 * 256 + b0
  | _, _ => 0

/-- The 32-bit `int` at the head of a byte sequence. -/
def get_i32 (e : byte_order) (bs : List Nat) : Int :=
  if get_u32 e bs < 2147483648 then (get_u32 e bs : Int) else (get_u32 e bs : Int) - 4294967296

/-- The address family constant of each variant. -/
def mid_address.family : mid_address → Nat
  | .unspec => NSOS_MID_AF_UNSPEC
  | .inet _ _ => NSOS_MID_AF_INET
  | .inet6 _ _ _ => NSOS_MID_AF_INET6
  | .unix _ => NSOS_MID_AF_UNIX
  | .packet _ _ _ _ _ => NSOS_MID_AF_PACKET

/-- Modelled from the spec: a valid address value.  Every field fits the width of its
`struct` member in the header, an IPv6 address has sixteen bytes, a path is a string of at
most `UNIX_PATH_MAX` bytes (no NUL byte inside), a hardware address has at most
`SLL_ADDR_MAX` bytes. -/
def mid_address.valid : mid_address → Prop
  | .unspec => True
  | .inet port addr => port < 65536 ∧ addr < 4294967296
  | .inet6 port addr scope_id =>
      port < 65536 ∧ addr.length = 16 ∧ (∀ b ∈ addr, b < 256) ∧ scope_id < 4294967296
  | .unix path => path.length ≤ UNIX_PATH_MAX ∧ ∀ b ∈ path, 0 < b ∧ b < 256
  | .packet protocol ifindex hatype pkttype addr =>
      protocol < 65536 ∧ -2147483648 ≤ ifindex ∧ ifindex < 2147483648 ∧ hatype < 65536 ∧
        pkttype < 256 ∧ addr.length ≤ SLL_ADDR_MAX ∧ ∀ b ∈ addr, b < 256

instance (a : mid_address) : Decidable a.valid := by
  cases a <;> unfold mid_address.valid <;> infer_instance

/-- Modelled from the spec: `encode` of the Address Codec (section 4.1), whose body is not in
the header.  The result is the memory image of the matching `struct` of the header, member
after member in declaration order (none of the four has padding: their sizes are 8, 24, 110
and 20 bytes, `sa_family_t` being 16 bits wide as `sin_family` is).  The port and the IPv4
address are big-endian (sections 4.1 and 6); the other multi-byte members are in the byte
order `e`, a parameter.  A path longer than `UNIX_PATH_MAX`, a hardware address longer than
`SLL_ADDR_MAX` or an IPv6 address that is not sixteen bytes is an address-length mismatch;
a shorter path or hardware address is padded with zero bytes; the unspecified family, which has
no `struct` in `nsos_mid_sockaddr_storage`, is an unsupported family. -/
def encode (e : byte_order) : mid_address → Except codec_error (List Nat)
  | .unspec => .error .unsupported_family
  | .inet port addr =>
      .ok (put_u16 e NSOS_MID_AF_INET ++ put_u16 .big port ++ put_u32 .big addr)
  | .inet6 port addr scope_id =>
      if addr.length = 16 then
        .ok (put_u16 e NSOS_MID_AF_INET6 ++ put_u16 .big port ++ addr ++ put_u32 e scope_id)
      else .error .address_length_mismatch
  | .unix path =>
      if path.length ≤ UNIX_PATH_MAX then
        .ok (put_u16 e NSOS_MID_AF_UNIX ++ path ++
          List.replicate (UNIX_PATH_MAX - path.length) 0)
      else .error .address_length_mismatch
  | .packet protocol ifindex hatype pkttype addr =>
      if addr.length ≤ SLL_ADDR_MAX then
        .ok (put_u16 e NSOS_MID_AF_PACKET ++ put_u16 e protocol ++ put_i32 e ifindex ++
          put_u16 e hatype ++ [pkttype % 256, addr.length] ++ addr ++
          List.replicate (SLL_ADDR_MAX - addr.length) 0)
      else .error .address_length_mismatch

/-- Modelled from the spec: `decode` of the Address Codec (section 4.1), whose body is not in
the header.  It reads the memory image of the `struct` of the given family: the byte count
must be the size of that `struct`, the path is read up to the first zero byte or the end of
`sun_path`, the hardware address is the first `sll_halen` bytes of `sll_addr`.  A family
without a `struct` is an unsupported family. -/
def decode (e : byte_order) (bytes : List Nat) (family : Nat) : Except codec_error mid_address :=
  if family = NSOS_MID_AF_INET then
    if bytes.length = 8 then
      .ok (.inet (get_u16 .big (bytes.drop 2)) (get_u32 .big (bytes.drop 4)))
    else .error .address_length_mismatch
  else if family = NSOS_MID_AF_INET6 then
    if bytes.length = 24 then
      .ok (.inet6 (get_u16 .big (bytes.drop 2)) ((bytes.drop 4).take 16)
        (get_u32 e (bytes.drop 20)))
    else .error .address_length_mismatch
  else if family = NSOS_MID_AF_UNIX then
    if bytes.length = 2 + UNIX_PATH_MAX then
      .ok (.unix ((bytes.drop 2).takeWhile (fun b => b != 0)))
    else .error .address_length_mismatch
  else if family = NSOS_MID_AF_PACKET then
    if bytes.length = 12 + SLL_ADDR_MAX ∧ (bytes.drop 11).headD 0 ≤ SLL_ADDR_MAX then
      .ok (.packet (get_u16 e (bytes.drop 2)) (get_i32 e (bytes.drop 4))
        (get_u16 e (bytes.drop 8)) ((bytes.drop 10).headD 0)
        ((bytes.drop 12).take ((bytes.drop 11).headD 0)))
    else .error .address_length_mismatch
  else .error .unsupported_family

/-! ### Readiness bridge -/

/-- Header lines 96-102, `struct nsos_mid_pollfd`.  The callback pointer `cb` is kept as the
identity of the callback. -/
structure nsos_mid_pollfd where
  fd : Int
  events : Int
  revents : Int
  cb : Nat
  deriving DecidableEq, Repr

/-- Modelled from the spec: the outcome of a Readiness Bridge operation, success or the
registration-state error of section 7.  The prototypes of the header return `void`, so the
way the outcome reaches the caller is not part of this model. -/
inductive bridge_status where
  | ok
  | registration_state_error
  deriving DecidableEq, Repr

/-- Modelled from the spec: whether a descriptor has a registration in the table
(section 3, at most one registration per descriptor). -/
def is_registered (table : List nsos_mid_pollfd) (fd : Int) : Bool :=
  table.any (fun r => r.fd == fd)

/-- Modelled from the spec: `add` of the Readiness Bridge (section 4.6), whose body is not in
the header: unregistered to registered; a descriptor that already has a registration is a
registration-state error. -/
def nsos_adapt_poll_add (table : List nsos_mid_pollfd) (pollfd : nsos_mid_pollfd) :
    bridge_status × List nsos_mid_pollfd :=
  if is_registered table pollfd.fd then (.registration_state_error, table)
  else (.ok, pollfd :: table)

/-- Modelled from the spec: `update` of the Readiness Bridge (section 4.6), whose body is not
in the header: registered to registered, the requested event mask of the registration of the
descriptor is replaced; an unregistered descriptor is a registration-state error, detected
before anything else is done. -/
def nsos_adapt_poll_update (table : List nsos_mid_pollfd) (pollfd : nsos_mid_pollfd) :
    bridge_status × List nsos_mid_pollfd :=
  if is_registered table pollfd.fd then
    (.ok, table.map (fun r => if r.fd = pollfd.fd then { r with events := pollfd.events } else r))
  else (.registration_state_error, table)

/-- Modelled from the spec: `remove` of the Readiness Bridge (section 4.6), whose body is not
in the header: registered to unregistered; an unregistered descriptor is a registration-state
error, detected before anything else is done. -/
def nsos_adapt_poll_remove (table : List nsos_mid_pollfd) (pollfd : nsos_mid_pollfd) :
    bridge_status × List nsos_mid_pollfd :=
  if is_registered table pollfd.fd then (.ok, table.filter (fun r => r.fd != pollfd.fd))
  else (.registration_state_error, table)

/-! ## Theorems -/

/-! ### Bit-level lemmas on the C operators -/

/-- Bitwise difference of naturals through exclusive or. -/
theorem nat_ldiff_eq (m n : Nat) : Nat.ldiff m n = m ^^^ (m &&& n) := by
  apply Nat.eq_of_testBit_eq
  intro i
  rw [Nat.testBit_ldiff, Nat.testBit_xor, Nat.testBit_and]
  cases m.testBit i <;> cases n.testBit i <;> rfl

/-- The operator `int_and` is the two's-complement conjunction `Int.land` of Mathlib. -/
theorem int_and_eq_land (x y : Int) : int_and x y = Int.land x y := by
  rcases x with m | m <;> rcases y with n | n
  all_goals simp only [int_and, Int.land, nat_ldiff_eq]
  all_goals rfl

/-- The operator `int_or` is the two's-complement disjunction `Int.lor` of Mathlib. -/
theorem int_or_eq_lor (x y : Int) : int_or x y = Int.lor x y := by
  rcases x with m | m <;> rcases y with n | n
  all_goals simp only [int_or, Int.lor, nat_ldiff_eq]
  all_goals rfl

/-- The operator `int_not` is the two's-complement complement `Int.lnot` of Mathlib. -/
theorem int_not_eq_lnot (x : Int) : int_not x = Int.lnot x := by
  rcases x with m | m <;> rfl

/-- Bit `i` of `x & y`. -/
theorem testBit_int_and (x y : Int) (i : Nat) :
    (int_and x y).testBit i = (x.testBit i && y.testBit i) := by
  rw [int_and_eq_land, Int.testBit_land]

/-- Bit `i` of `x | y`. -/
theorem testBit_int_or (x y : Int) (i : Nat) :
    (int_or x y).testBit i = (x.testBit i || y.testBit i) := by
  rw [int_or_eq_lor, Int.testBit_lor]

/-- Bit `i` of `~x`. -/
theorem testBit_int_not (x : Int) (i : Nat) :
    (int_not x).testBit i = !x.testBit i := by
  rw [int_not_eq_lnot, Int.testBit_lnot]

/-- Zero has no bit set. -/
theorem testBit_zero_int (i : Nat) : (0 : Int).testBit i = false := by
  show Nat.testBit 0 i = false
  simp

/-- Two integers with the same bits are equal. -/
theorem int_eq_of_testBit_eq {m n : Int} (h : ∀ i, m.testBit i = n.testBit i) : m = n := by
  rcases m with m | m <;> rcases n with n | n
  · exact congrArg Int.ofNat (Nat.eq_of_testBit_eq h)
  · exfalso
    have h1 := h (m + n)
    have hm : m.testBit (m + n) = false :=
      Nat.testBit_lt_two_pow (lt_of_lt_of_le (Nat.lt_two_pow m) (Nat.pow_le_pow_right (by decide) (by omega)))
    have hn : n.testBit (m + n) = false :=
      Nat.testBit_lt_two_pow (lt_of_lt_of_le (Nat.lt_two_pow n) (Nat.pow_le_pow_right (by decide) (by omega)))
    simp [Int.testBit, hm, hn] at h1
  · exfalso
    have h1 := h (m + n)
    have hm : m.testBit (m + n) = false :=
      Nat.testBit_lt_two_pow (lt_of_lt_of_le (Nat.lt_two_pow m) (Nat.pow_le_pow_right (by decide) (by omega)))
    have hn : n.testBit (m + n) = false :=
      Nat.testBit_lt_two_pow (lt_of_lt_of_le (Nat.lt_two_pow n) (Nat.pow_le_pow_right (by decide) (by omega)))
    simp [Int.testBit, hm, hn] at h1
  · refine congrArg Int.negSucc (Nat.eq_of_testBit_eq fun i => ?_)
    have h1 := h i
    simp only [Int.testBit] at h1
    cases hm : m.testBit i <;> cases hn : n.testBit i <;> simp_all

/-- An integer is zero exactly when it has no bit set. -/
theorem int_eq_zero_iff (x : Int) : x = 0 ↔ ∀ i, x.testBit i = false := by
  constructor
  · rintro rfl i
    exact testBit_zero_int i
  · intro h
    exact int_eq_of_testBit_eq fun i => by rw [h i, testBit_zero_int]

/-- The test `x & y` of the C code succeeds exactly when the two words share a bit. -/
theorem int_and_ne_zero_iff (x y : Int) :
    int_and x y ≠ 0 ↔ ∃ i, x.testBit i = true ∧ y.testBit i = true := by
  rw [Ne, int_eq_zero_iff]
  simp only [testBit_int_and, not_forall, Bool.and_eq_false_imp, Bool.not_eq_false,
    Classical.not_imp, exists_prop]

/-- Range of a non-negative `int`. -/
theorem in_int_range_ofNat (m : Nat) : in_int_range (Int.ofNat m) ↔ m < 2 ^ 31 := by
  unfold in_int_range
  rw [Int.ofNat_eq_coe]
  omega

/-- Range of a negative `int`. -/
theorem in_int_range_negSucc (m : Nat) : in_int_range (Int.negSucc m) ↔ m < 2 ^ 31 := by
  unfold in_int_range
  rw [Int.negSucc_eq]
  omega

/-- The 32-bit range is closed under `&`. -/
theorem int_and_in_range (x y : Int) (hx : in_int_range x) (hy : in_int_range y) :
    in_int_range (int_and x y) := by
  rcases x with m | m <;> rcases y with n | n <;>
    simp only [in_int_range_ofNat, in_int_range_negSucc, int_and] at hx hy ⊢
  · exact Nat.and_lt_two_pow m hy
  · exact Nat.xor_lt_two_pow hx (Nat.and_lt_two_pow m hy)
  · exact Nat.xor_lt_two_pow hy (Nat.and_lt_two_pow n hx)
  · exact Nat.or_lt_two_pow hx hy

/-- The 32-bit range is closed under `|`. -/
theorem int_or_in_range (x y : Int) (hx : in_int_range x) (hy : in_int_range y) :
    in_int_range (int_or x y) := by
  rcases x with m | m <;> rcases y with n | n <;>
    simp only [in_int_range_ofNat, in_int_range_negSucc, int_or] at hx hy ⊢
  · exact Nat.or_lt_two_pow hx hy
  · exact Nat.xor_lt_two_pow hy (Nat.and_lt_two_pow n hx)
  · exact Nat.xor_lt_two_pow hx (Nat.and_lt_two_pow m hy)
  · exact Nat.and_lt_two_pow m hy

/-- The 32-bit range is closed under `~`. -/
theorem int_not_in_range (x : Int) (hx : in_int_range x) : in_int_range (int_not x) := by
  rcases x with m | m
  · rw [in_int_range_ofNat] at hx
    exact (in_int_range_negSucc m).2 hx
  · rw [in_int_range_negSucc] at hx
    exact (in_int_range_ofNat m).2 hx

/-- On 32-bit `int` arguments the function returns 32-bit `int` words: the unbounded integers of
the embedding never leave the range of the C type. -/
theorem nsos_socket_flag_convert_in_range (flags_a flag_a flags_b flag_b : Int)
    (h1 : in_int_range flags_a) (h2 : in_int_range flag_a) (h3 : in_int_range flags_b)
    (h4 : in_int_range flag_b) :
    in_int_range (nsos_socket_flag_convert flags_a flag_a flags_b flag_b).1 ∧
      in_int_range (nsos_socket_flag_convert flags_a flag_a flags_b flag_b).2 := by
  unfold nsos_socket_flag_convert
  split_ifs
  · exact ⟨int_and_in_range _ _ h1 (int_not_in_range _ h2), int_or_in_range _ _ h3 h4⟩
  · exact ⟨h1, h3⟩

/-! ### Lemmas on `nsos_socket_flag_convert` -/

/-- In both branches the first word after the call is `flags_a & ~flag_a`. -/
theorem convert_fst (flags_a flag_a flags_b flag_b : Int) :
    (nsos_socket_flag_convert flags_a flag_a flags_b flag_b).1 =
      int_and flags_a (int_not flag_a) := by
  unfold nsos_socket_flag_convert
  split_ifs with h
  · rfl
  · have hz : int_and flags_a flag_a = 0 := not_not.mp h
    refine int_eq_of_testBit_eq fun i => ?_
    have hi := (int_eq_zero_iff _).1 hz i
    rw [testBit_int_and] at hi
    rw [testBit_int_and, testBit_int_not]
    cases ha : flags_a.testBit i <;> cases hb : flag_a.testBit i <;> simp_all

/-- The second word after the call. -/
theorem convert_snd (flags_a flag_a flags_b flag_b : Int) :
    (nsos_socket_flag_convert flags_a flag_a flags_b flag_b).2 =
      if int_and flags_a flag_a ≠ 0 then int_or flags_b flag_b else flags_b := by
  unfold nsos_socket_flag_convert
  split_ifs <;> rfl

/-- A bit is in the union of the source masks exactly when some pair has it. -/
theorem testBit_source_mask (table : List (Int × Int)) (i : Nat) :
    (source_mask table).testBit i = table.any (fun p => p.1.testBit i) := by
  induction table with
  | nil => exact testBit_zero_int i
  | cons p rest ih =>
    obtain ⟨a, b⟩ := p
    simp only [source_mask, testBit_int_or, ih, List.any_cons]

/-- The first word after a whole table. -/
theorem convert_all_fst (table : List (Int × Int)) (flags_a flags_b : Int) :
    (flag_convert_all table flags_a flags_b).1 =
      int_and flags_a (int_not (source_mask table)) := by
  induction table generalizing flags_a flags_b with
  | nil =>
    refine int_eq_of_testBit_eq fun i => ?_
    simp [flag_convert_all, source_mask, testBit_int_and, testBit_int_not, testBit_zero_int]
  | cons p rest ih =>
    obtain ⟨a, b⟩ := p
    simp only [flag_convert_all, ih, convert_fst, source_mask]
    refine int_eq_of_testBit_eq fun i => ?_
    simp only [testBit_int_and, testBit_int_not, testBit_int_or]
    cases flags_a.testBit i <;> cases a.testBit i <;> cases (source_mask rest).testBit i <;> rfl

/-- Two predicates that agree on the members of a list have the same `any`. -/
theorem any_congr_of_mem {α : Type} {l : List α} {f g : α → Bool}
    (h : ∀ x ∈ l, f x = g x) : l.any f = l.any g := by
  induction l with
  | nil => rfl
  | cons x xs ih =>
    rw [List.any_cons, List.any_cons, h x (List.mem_cons_self x xs),
      ih fun y hy => h y (List.mem_cons_of_mem x hy)]

/-- Clearing a mask does not change the test against a disjoint mask. -/
theorem int_and_clear_disjoint (f a m : Int) (h : int_and a m = 0) :
    int_and (int_and f (int_not a)) m = int_and f m := by
  refine int_eq_of_testBit_eq fun i => ?_
  have hi := (int_eq_zero_iff _).1 h i
  rw [testBit_int_and] at hi
  simp only [testBit_int_and, testBit_int_not]
  cases hf : f.testBit i <;> cases ha : a.testBit i <;> cases hm : m.testBit i <;> simp_all

/-- The second word after a whole table whose source masks are pairwise disjoint. -/
theorem convert_all_snd_testBit (table : List (Int × Int))
    (hp : table.Pairwise (fun p q => int_and p.1 q.1 = 0)) (flags_a flags_b : Int) (i : Nat) :
    (flag_convert_all table flags_a flags_b).2.testBit i =
      (flags_b.testBit i ||
        table.any (fun p => decide (int_and flags_a p.1 ≠ 0) && p.2.testBit i)) := by
  induction table generalizing flags_a flags_b with
  | nil => simp [flag_convert_all]
  | cons p rest ih =>
    obtain ⟨a, b⟩ := p
    rw [List.pairwise_cons] at hp
    have hany : rest.any (fun p => decide (int_and (int_and flags_a (int_not a)) p.1 ≠ 0)
          && p.2.testBit i) =
        rest.any (fun p => decide (int_and flags_a p.1 ≠ 0) && p.2.testBit i) :=
      any_congr_of_mem fun q hq => by rw [int_and_clear_disjoint flags_a a q.1 (hp.1 q hq)]
    simp only [flag_convert_all, ih hp.2, convert_fst, convert_snd, hany, List.any_cons]
    split_ifs with hc
    · simp [testBit_int_or, hc, Bool.or_assoc]
    · simp [hc]

/-- Disjointness of two words is symmetric. -/
theorem int_and_symm_zero : Symmetric (fun x y : Int => int_and x y = 0) := by
  intro x y h
  rw [← h]
  refine int_eq_of_testBit_eq fun i => ?_
  simp only [testBit_int_and, Bool.and_comm]

/-- Round trip over any table with pairwise disjoint source masks, pairwise disjoint non-zero
destination masks, and a word made of whole source masks. -/
theorem translate_roundtrip_general (table : List (Int × Int)) (f : Int)
    (hsrc : table.Pairwise (fun p q => int_and p.1 q.1 = 0))
    (hdst : table.Pairwise (fun p q => int_and p.2 q.2 = 0))
    (hnz : ∀ p ∈ table, p.2 ≠ 0)
    (hatom : ∀ p ∈ table, int_and f p.1 ≠ 0 → int_and f p.1 = p.1)
    (hf : int_and f (int_not (source_mask table)) = 0) :
    translate_to_mid table (translate_to_host table f) = f := by
  have hdst2 : (table.map Prod.swap).Pairwise (fun p q => int_and p.1 q.1 = 0) := by
    rw [List.pairwise_map]
    exact hdst
  have hH : ∀ j, (translate_to_host table f).testBit j =
      table.any (fun p => decide (int_and f p.1 ≠ 0) && p.2.testBit j) := by
    intro j
    unfold translate_to_host
    rw [convert_all_snd_testBit table hsrc, testBit_zero_int, Bool.false_or]
  have hkey : ∀ p ∈ table,
      (int_and (translate_to_host table f) p.2 ≠ 0 ↔ int_and f p.1 ≠ 0) := by
    intro p hp
    constructor
    · intro h
      obtain ⟨j, hj1, hj2⟩ := (int_and_ne_zero_iff _ _).1 h
      rw [hH j, List.any_eq_true] at hj1
      obtain ⟨q, hq, hq2⟩ := hj1
      rw [Bool.and_eq_true, decide_eq_true_eq] at hq2
      by_cases hqp : q = p
      · rw [← hqp]
        exact hq2.1
      · exfalso
        have hsym : Symmetric (fun p q : Int × Int => int_and p.2 q.2 = 0) :=
          fun x y hxy => int_and_symm_zero hxy
        have h0 : int_and q.2 p.2 = 0 := hdst.forall hsym hq hp hqp
        have := (int_eq_zero_iff _).1 h0 j
        rw [testBit_int_and, hq2.2, hj2] at this
        exact Bool.noConfusion this
    · intro h
      have hne : p.2 ≠ 0 := hnz p hp
      rw [Ne, int_eq_zero_iff, not_forall] at hne
      obtain ⟨j, hj⟩ := hne
      rw [Bool.not_eq_false] at hj
      refine (int_and_ne_zero_iff _ _).2 ⟨j, ?_, hj⟩
      rw [hH j, List.any_eq_true]
      exact ⟨p, hp, by simp [h, hj]⟩
  refine int_eq_of_testBit_eq fun i => ?_
  unfold translate_to_mid
  rw [convert_all_snd_testBit _ hdst2, testBit_zero_int, Bool.false_or, List.any_map]
  have hany : table.any ((fun p : Int × Int =>
        decide (int_and (translate_to_host table f) p.1 ≠ 0) && p.2.testBit i) ∘ Prod.swap) =
      table.any (fun p => decide (int_and f p.1 ≠ 0) && p.1.testBit i) :=
    any_congr_of_mem fun p hp => by
      simp only [Function.comp, Prod.fst_swap, Prod.snd_swap, decide_eq_decide.2 (hkey p hp)]
  rw [hany]
  cases hfi : f.testBit i
  · rw [Bool.eq_false_iff, Ne, List.any_eq_true]
    rintro ⟨p, hp, hp2⟩
    rw [Bool.and_eq_true, decide_eq_true_eq] at hp2
    have h1 := hatom p hp hp2.1
    have h2 : (int_and f p.1).testBit i = true := by rw [h1]; exact hp2.2
    rw [testBit_int_and, hfi] at h2
    exact Bool.noConfusion h2
  · rw [List.any_eq_true]
    have h1 := (int_eq_zero_iff _).1 hf i
    rw [testBit_int_and, testBit_int_not, hfi, Bool.true_and, Bool.not_eq_false_eq_eq_true,
      testBit_source_mask, List.any_eq_true] at h1
    obtain ⟨p, hp, hp2⟩ := h1
    refine ⟨p, hp, ?_⟩
    rw [Bool.and_eq_true, decide_eq_true_eq]
    exact ⟨(int_and_ne_zero_iff _ _).2 ⟨i, hfi, hp2⟩, hp2⟩

/-- The bits of a power of two. -/
theorem testBit_two_pow_int (k i : Nat) : ((2 : Int) ^ k).testBit i = decide (k = i) := by
  have h : ((2 : Int) ^ k) = Int.ofNat (2 ^ k) := by simp
  rw [h]
  show Nat.testBit (2 ^ k) i = decide (k = i)
  exact Nat.testBit_two_pow

/-- The bits of `int_bit k`: the sign bit extends upwards in two's complement. -/
theorem testBit_int_bit (k i : Nat) :
    (int_bit k).testBit i = if k = 31 then decide (31 ≤ i) else decide (k = i) := by
  unfold int_bit
  split_ifs with h
  · have h2 : (-(2 ^ 31) : Int) = Int.negSucc (2 ^ 31 - 1) := by decide
    rw [h2]
    show (!Nat.testBit (2 ^ 31 - 1) i) = decide (31 ≤ i)
    rw [Nat.testBit_two_pow_sub_one]
    by_cases hi : i < 31 <;> simp [hi]
    omega
  · exact testBit_two_pow_int k i

/-- A single bit is not zero. -/
theorem int_bit_ne_zero (k : Nat) : int_bit k ≠ 0 := by
  rw [Ne, int_eq_zero_iff, not_forall]
  by_cases h : k = 31
  · exact ⟨31, by simp [testBit_int_bit, h]⟩
  · exact ⟨k, by simp [testBit_int_bit, h]⟩

/-- Two different single bits of a 32-bit word are disjoint. -/
theorem int_bit_disjoint (k l : Nat) (hk : k < 32) (hl : l < 32) (hkl : k ≠ l) :
    int_and (int_bit k) (int_bit l) = 0 := by
  rw [int_eq_zero_iff]
  intro i
  rw [testBit_int_and, testBit_int_bit, testBit_int_bit]
  split_ifs with h1 h2 h2
  · omega
  · simp only [Bool.and_eq_false_imp, decide_eq_true_eq, decide_eq_false_iff_not]
    omega
  · simp only [Bool.and_eq_false_imp, decide_eq_true_eq, decide_eq_false_iff_not]
    omega
  · simp only [Bool.and_eq_false_imp, decide_eq_true_eq, decide_eq_false_iff_not]
    omega

/-- A word that meets a one-bit mask contains it. -/
theorem two_pow_atomic (f : Int) (k : Nat) (h : int_and f (2 ^ k) ≠ 0) :
    int_and f (2 ^ k) = 2 ^ k := by
  obtain ⟨j, hj1, hj2⟩ := (int_and_ne_zero_iff _ _).1 h
  rw [testBit_two_pow_int, decide_eq_true_eq] at hj2
  subst hj2
  refine int_eq_of_testBit_eq fun i => ?_
  rw [testBit_int_and, testBit_two_pow_int]
  by_cases hi : k = i
  · subst hi
    simp [hj1]
  · simp [hi]

/-- The second word depends on the first only through the bits of the source masks. -/
theorem convert_all_snd_congr (table : List (Int × Int)) (f g flags_b : Int)
    (h : ∀ i, (source_mask table).testBit i = true → f.testBit i = g.testBit i) :
    (flag_convert_all table f flags_b).2 = (flag_convert_all table g flags_b).2 := by
  induction table generalizing f g flags_b with
  | nil => rfl
  | cons p rest ih =>
    obtain ⟨a, b⟩ := p
    have hand : int_and f a = int_and g a := by
      refine int_eq_of_testBit_eq fun i => ?_
      have hi := h i
      simp only [source_mask, testBit_int_or, Bool.or_eq_true] at hi
      rw [testBit_int_and, testBit_int_and]
      cases ha : a.testBit i
      · simp
      · rw [hi (Or.inl ha)]
    simp only [flag_convert_all, convert_fst, convert_snd, hand]
    apply ih
    intro i hi
    have h2 := h i
    simp only [source_mask, testBit_int_or, Bool.or_eq_true] at h2
    rw [testBit_int_and, testBit_int_and, h2 (Or.inr hi)]

/-- Every bit of the second word was there at the start or comes from a destination mask. -/
theorem convert_all_snd_origin (table : List (Int × Int)) (f flags_b : Int) (i : Nat)
    (h : (flag_convert_all table f flags_b).2.testBit i = true) :
    flags_b.testBit i = true ∨ ∃ p ∈ table, p.2.testBit i = true := by
  induction table generalizing f flags_b with
  | nil => exact Or.inl h
  | cons p rest ih =>
    obtain ⟨a, b⟩ := p
    simp only [flag_convert_all] at h
    rcases ih _ _ h with h1 | ⟨q, hq, hq2⟩
    · rw [convert_snd] at h1
      split_ifs at h1
      · rw [testBit_int_or, Bool.or_eq_true] at h1
        rcases h1 with h1 | h1
        · exact Or.inl h1
        · exact Or.inr ⟨(a, b), List.mem_cons_self _ _, h1⟩
      · exact Or.inl h1
    · exact Or.inr ⟨q, List.mem_cons_of_mem _ hq, hq2⟩

/-- A bit outside every source mask stays in the first word. -/
theorem unknown_bit_kept (table : List (Int × Int)) (f flags_b : Int) (i : Nat)
    (hf : f.testBit i = true) (hu : ∀ p ∈ table, p.1.testBit i = false) :
    (flag_convert_all table f flags_b).1.testBit i = true := by
  rw [convert_all_fst, testBit_int_and, testBit_int_not, testBit_source_mask, hf, Bool.true_and,
    Bool.not_eq_true', List.any_eq_false]
  intro p hp
  rw [hu p hp]
  exact Bool.false_ne_true

/-! ### Lemmas on the address codec -/

/-- Reading back a 16-bit field. -/
theorem get_put_u16 (e : byte_order) (x : Nat) (h : x < 65536) (rest : List Nat) :
    get_u16 e (put_u16 e x ++ rest) = x := by
  cases e <;> simp only [put_u16, get_u16, List.cons_append, List.nil_append] <;> omega

/-- Reading back a 32-bit field. -/
theorem get_put_u32 (e : byte_order) (x : Nat) (h : x < 4294967296) (rest : List Nat) :
    get_u32 e (put_u32 e x ++ rest) = x := by
  cases e <;> simp only [put_u32, get_u32, List.cons_append, List.nil_append] <;> omega

/-- Reading back a 32-bit signed field. -/
theorem get_put_i32 (e : byte_order) (x : Int) (h1 : -2147483648 ≤ x) (h2 : x < 2147483648)
    (rest : List Nat) : get_i32 e (put_i32 e x ++ rest) = x := by
  unfold get_i32 put_i32
  rw [get_put_u32 e _ (by omega)]
  split_ifs <;> omega

/-- A 16-bit field is two bytes. -/
theorem length_put_u16 (e : byte_order) (x : Nat) : (put_u16 e x).length = 2 := by
  cases e <;> rfl

/-- A 32-bit field is four bytes. -/
theorem length_put_u32 (e : byte_order) (x : Nat) : (put_u32 e x).length = 4 := by
  cases e <;> rfl

/-- A string without NUL byte is read back from its zero-padded array. -/
theorem takeWhile_nonzero_append (path : List Nat) (n : Nat) (h : ∀ b ∈ path, 0 < b) :
    (path ++ List.replicate n 0).takeWhile (fun b => b != 0) = path := by
  induction path with
  | nil =>
    cases n with
    | zero => rfl
    | succ n => simp [List.replicate_succ, List.takeWhile_cons]
  | cons b bs ih =>
    have hb : 0 < b := h b (List.mem_cons_self _ _)
    have hb2 : (b != 0) = true := by simp; omega
    rw [List.cons_append, List.takeWhile_cons, hb2]
    simp only [if_true]
    rw [ih fun c hc => h c (List.mem_cons_of_mem _ hc)]

/-- The family constants are distinct (IPv6). -/
theorem af_inet6_ne : NSOS_MID_AF_INET6 ≠ NSOS_MID_AF_INET := by decide

/-- The family constants are distinct (Unix). -/
theorem af_unix_ne :
    NSOS_MID_AF_UNIX ≠ NSOS_MID_AF_INET ∧ NSOS_MID_AF_UNIX ≠ NSOS_MID_AF_INET6 := by
  decide

/-- The family constants are distinct (packet). -/
theorem af_packet_ne : NSOS_MID_AF_PACKET ≠ NSOS_MID_AF_INET ∧
    NSOS_MID_AF_PACKET ≠ NSOS_MID_AF_INET6 ∧ NSOS_MID_AF_PACKET ≠ NSOS_MID_AF_UNIX := by
  decide

/-- Skipping a 16-bit field. -/
theorem drop_two_put_u16 (e : byte_order) (x : Nat) (rest : List Nat) :
    (put_u16 e x ++ rest).drop 2 = rest :=
  List.drop_left' (length_put_u16 e x)

/-- Skipping a 32-bit field. -/
theorem drop_four_put_u32 (e : byte_order) (x : Nat) (rest : List Nat) :
    (put_u32 e x ++ rest).drop 4 = rest :=
  List.drop_left' (length_put_u32 e x)

/-- Skipping in two steps. -/
theorem drop_add_drop (n m : Nat) (l : List Nat) : l.drop (n + m) = (l.drop n).drop m := by
  rw [List.drop_drop, Nat.add_comm]

/-! ### Lemmas on the readiness bridge -/

/-- The registration transitions of the model: `add` registers an unregistered descriptor,
after which `update` and `remove` succeed, and `remove` leaves it unregistered. -/
theorem poll_add_then_update_remove (table : List nsos_mid_pollfd) (pollfd : nsos_mid_pollfd)
    (h : is_registered table pollfd.fd = false) :
    nsos_adapt_poll_add table pollfd = (.ok, pollfd :: table) ∧
      (nsos_adapt_poll_update (pollfd :: table) pollfd).1 = .ok ∧
      (nsos_adapt_poll_remove (pollfd :: table) pollfd).1 = .ok ∧
      is_registered (nsos_adapt_poll_remove (pollfd :: table) pollfd).2 pollfd.fd = false := by
  have hreg : is_registered (pollfd :: table) pollfd.fd = true := by
    simp [is_registered]
  refine ⟨?_, ?_, ?_, ?_⟩
  · unfold nsos_adapt_poll_add
    rw [h]
    rfl
  · unfold nsos_adapt_poll_update
    rw [hreg]
    rfl
  · unfold nsos_adapt_poll_remove
    rw [hreg]
    rfl
  · unfold nsos_adapt_poll_remove
    rw [hreg]
    simp [is_registered]

/-! ## Claims -/

/-- C1: for every pair of flag words and every pair of masks, `nsos_socket_flag_convert`
clears the mask `flag_a` in the first word and sets the mask `flag_b` in the second exactly
when the first word meets `flag_a`: if `flags_a & flag_a` is non-zero the result is
`(flags_a & ~flag_a, flags_b | flag_b)`, bit for bit; if it is zero both words are returned
unchanged. -/
theorem nsos_socket_flag_convert_contract (flags_a flag_a flags_b flag_b : Int) :
    (int_and flags_a flag_a ≠ 0 →
      nsos_socket_flag_convert flags_a flag_a flags_b flag_b =
          (int_and flags_a (int_not flag_a), int_or flags_b flag_b) ∧
        (∀ i, (nsos_socket_flag_convert flags_a flag_a flags_b flag_b).1.testBit i =
          (flags_a.testBit i && !flag_a.testBit i)) ∧
        (∀ i, (nsos_socket_flag_convert flags_a flag_a flags_b flag_b).2.testBit i =
          (flags_b.testBit i || flag_b.testBit i))) ∧
    (int_and flags_a flag_a = 0 →
      nsos_socket_flag_convert flags_a flag_a flags_b flag_b = (flags_a, flags_b)) := by
  constructor
  · intro h
    have he : nsos_socket_flag_convert flags_a flag_a flags_b flag_b =
        (int_and flags_a (int_not flag_a), int_or flags_b flag_b) := by
      unfold nsos_socket_flag_convert
      rw [if_pos h]
    refine ⟨he, fun i => ?_, fun i => ?_⟩
    · rw [he, testBit_int_and, testBit_int_not]
    · rw [he, testBit_int_or]
  · intro h
    unfold nsos_socket_flag_convert
    rw [if_neg (not_not.mpr h)]

/-- Witness of C1 on `0x22` and on `0x02` against the mask `0x20`. -/
theorem nsos_socket_flag_convert_contract_witness :
    int_and 0x22 0x20 ≠ 0 ∧ int_and 0x02 0x20 = 0 ∧
      nsos_socket_flag_convert 0x22 0x20 0x01 0x40 = (0x02, 0x41) ∧
      nsos_socket_flag_convert 0x02 0x20 0x01 0x40 = (0x02, 0x01) :=
  ⟨by decide, by decide,
    ((nsos_socket_flag_convert_contract 0x22 0x20 0x01 0x40).1 (by decide)).1,
    (nsos_socket_flag_convert_contract 0x02 0x20 0x01 0x40).2 (by decide)⟩

/-- C2: flag translation is invertible.  For the table that pairs the four mid-layer bits
`NSOS_MID_MSG_PEEK`, `NSOS_MID_MSG_TRUNC`, `NSOS_MID_MSG_DONTWAIT`, `NSOS_MID_MSG_WAITALL`
with four pairwise distinct single bits of a 32-bit host word, and for every flag word `f`
made of those four mid-layer bits only, translating `f` to the host and back gives `f`. -/
theorem flag_translation_invertible (k1 k2 k3 k4 : Nat)
    (h1 : k1 < 32) (h2 : k2 < 32) (h3 : k3 < 32) (h4 : k4 < 32)
    (hd : [k1, k2, k3, k4].Nodup) (f : Int) (hf : int_and f nsos_msg_supported = f) :
    translate_to_mid (nsos_msg_table (int_bit k1) (int_bit k2) (int_bit k3) (int_bit k4))
      (translate_to_host (nsos_msg_table (int_bit k1) (int_bit k2) (int_bit k3) (int_bit k4)) f)
      = f := by
  simp only [List.nodup_cons, List.mem_cons, List.mem_singleton, not_or, List.not_mem_nil,
    not_false_eq_true, List.nodup_nil, and_true] at hd
  obtain ⟨⟨h12, h13, h14⟩, ⟨h23, h24⟩, h34⟩ := hd
  apply translate_roundtrip_general
  · simp only [nsos_msg_table, List.pairwise_cons, List.mem_cons, List.mem_singleton,
      forall_eq_or_imp, forall_eq, List.not_mem_nil, IsEmpty.forall_iff, implies_true,
      List.Pairwise.nil, and_true]
    decide
  · simp only [nsos_msg_table, List.pairwise_cons, List.mem_cons, List.mem_singleton,
      forall_eq_or_imp, forall_eq, List.not_mem_nil, IsEmpty.forall_iff, implies_true,
      List.Pairwise.nil, and_true]
    exact ⟨⟨int_bit_disjoint _ _ h1 h2 h12, int_bit_disjoint _ _ h1 h3 h13,
        int_bit_disjoint _ _ h1 h4 h14⟩,
      ⟨int_bit_disjoint _ _ h2 h3 h23, int_bit_disjoint _ _ h2 h4 h24⟩,
      int_bit_disjoint _ _ h3 h4 h34⟩
  · intro p hp
    simp only [nsos_msg_table, List.mem_cons, List.mem_singleton, List.not_mem_nil,
      or_false] at hp
    rcases hp with rfl | rfl | rfl | rfl <;> exact int_bit_ne_zero _
  · intro p hp
    simp only [nsos_msg_table, List.mem_cons, List.mem_singleton, List.not_mem_nil,
      or_false] at hp
    rcases hp with rfl | rfl | rfl | rfl
    · exact two_pow_atomic f 1
    · exact two_pow_atomic f 5
    · exact two_pow_atomic f 6
    · exact two_pow_atomic f 8
  · have hm : source_mask (nsos_msg_table (int_bit k1) (int_bit k2) (int_bit k3) (int_bit k4))
        = nsos_msg_supported := rfl
    rw [hm, int_eq_zero_iff]
    intro i
    have hi := congrArg (fun x => Int.testBit x i) hf
    simp only [testBit_int_and] at hi
    rw [testBit_int_and, testBit_int_not]
    cases hfi : f.testBit i <;> cases hs : nsos_msg_supported.testBit i <;> simp_all

/-- Witness of C2: peek, truncate and wait-all, with wait-all on the sign bit of the host
word. -/
theorem flag_translation_invertible_witness :
    int_and 0x122 nsos_msg_supported = 0x122 ∧
      translate_to_host (nsos_msg_table (int_bit 0) (int_bit 5) (int_bit 6) (int_bit 31)) 0x122
        = -0x7FFFFFDF ∧
      translate_to_mid (nsos_msg_table (int_bit 0) (int_bit 5) (int_bit 6) (int_bit 31))
        (translate_to_host (nsos_msg_table (int_bit 0) (int_bit 5) (int_bit 6) (int_bit 31))
          0x122) = 0x122 :=
  ⟨by decide, by decide,
    flag_translation_invertible 0 5 6 31 (by decide) (by decide) (by decide) (by decide)
      (by decide) 0x122 (by decide)⟩

/-- C5, counterexample: with the identity table of the four message flags, the word `0x06`
has bit 2 set, bit 2 is in no mid-layer mask of the table, and the translated word is `0x02`:
bit 2 is not set in it. -/
theorem unknown_bit_absent_from_translated_word :
    Int.testBit 0x06 2 = true ∧
      (∀ p ∈ nsos_msg_table 0x02 0x20 0x40 0x100, p.1.testBit 2 = false) ∧
      translate_to_host (nsos_msg_table 0x02 0x20 0x40 0x100) 0x06 = 0x02 ∧
      (translate_to_host (nsos_msg_table 0x02 0x20 0x40 0x100) 0x06).testBit 2 = false := by
  decide

/-- C5, amended: for every table, every input word `f` and every start of the translated
word, a bit of `f` that is in no mid-layer mask of the table is still set in the source word
after `nsos_socket_flag_convert` has been applied for every pair; it is set in the translated
word only if that word had it at the start or a host mask of the table has it. -/
theorem unknown_bit_stays_in_source_word (table : List (Int × Int)) (f flags_b : Int) (i : Nat)
    (hf : f.testBit i = true) (hu : ∀ p ∈ table, p.1.testBit i = false) :
    (flag_convert_all table f flags_b).1.testBit i = true ∧
      ((flag_convert_all table f flags_b).2.testBit i = true →
        flags_b.testBit i = true ∨ ∃ p ∈ table, p.2.testBit i = true) :=
  ⟨unknown_bit_kept table f flags_b i hf hu, convert_all_snd_origin table f flags_b i⟩

/-- Witness of the amended C5 on the word `0x06` and bit 2. -/
theorem unknown_bit_stays_in_source_word_witness :
    Int.testBit 0x06 2 = true ∧
      (∀ p ∈ nsos_msg_table 0x02 0x20 0x40 0x100, p.1.testBit 2 = false) ∧
      (flag_convert_all (nsos_msg_table 0x02 0x20 0x40 0x100) 0x06 0).1.testBit 2 = true :=
  ⟨by decide, by decide,
    (unknown_bit_stays_in_source_word (nsos_msg_table 0x02 0x20 0x40 0x100) 0x06 0 2
      (by decide) (by decide)).1⟩

/-- C9: for every list of `(flag_a, flag_b)` pairs, masks of several bits and overlapping
masks included, and every initial source word `f`, after `nsos_socket_flag_convert` has been
applied for every pair in turn the source word is `f & ~(flag_a_1 | ... | flag_a_n)`.  Every
bit of `f` outside all the masks stays in the source word; the destination word is the one
obtained from `f` without those bits, so none of them is moved into it; and the source word
ends at zero exactly when every bit of `f` is in some mask. -/
theorem convert_all_source_word (table : List (Int × Int)) (f flags_b : Int) :
    (flag_convert_all table f flags_b).1 = int_and f (int_not (source_mask table)) ∧
      (∀ i, (source_mask table).testBit i = table.any (fun p => p.1.testBit i)) ∧
      (∀ i, f.testBit i = true → (∀ p ∈ table, p.1.testBit i = false) →
        (flag_convert_all table f flags_b).1.testBit i = true) ∧
      (flag_convert_all table f flags_b).2 =
        (flag_convert_all table (int_and f (source_mask table)) flags_b).2 ∧
      ((flag_convert_all table f flags_b).1 = 0 ↔
        ∀ i, f.testBit i = true → ∃ p ∈ table, p.1.testBit i = true) := by
  refine ⟨convert_all_fst table f flags_b, testBit_source_mask table,
    fun i hf hu => unknown_bit_kept table f flags_b i hf hu, ?_, ?_⟩
  · apply convert_all_snd_congr
    intro i hi
    rw [testBit_int_and, hi, Bool.and_true]
  · rw [convert_all_fst, int_eq_zero_iff]
    refine forall_congr' fun i => ?_
    rw [testBit_int_and, testBit_int_not, testBit_source_mask]
    cases hfi : f.testBit i
    · simp
    · simp [List.any_eq_true]

/-- Witness of C9 on two overlapping two-bit masks: bit 4 of `0x1F` is outside both and
stays. -/
theorem convert_all_source_word_witness :
    flag_convert_all [(0x06, 0x01), (0x0C, 0x10)] 0x1F 0 = (0x11, 0x11) ∧
      source_mask [(0x06, 0x01), (0x0C, 0x10)] = 0x0E ∧
      (flag_convert_all [(0x06, 0x01), (0x0C, 0x10)] 0x1F 0).1.testBit 4 = true :=
  ⟨by decide, by decide,
    (convert_all_source_word [(0x06, 0x01), (0x0C, 0x10)] 0x1F 0).2.2.1 4 (by decide)
      (by decide)⟩

/-- C10: for two pairs whose source masks are disjoint, applying `nsos_socket_flag_convert`
with the first pair and then the second gives the same two words as the other order; for
some overlapping source masks the two orders give different destination words. -/
theorem convert_order_independent :
    (∀ a1 b1 a2 b2 flags_a flags_b : Int, int_and a1 a2 = 0 →
      nsos_socket_flag_convert (nsos_socket_flag_convert flags_a a1 flags_b b1).1 a2
          (nsos_socket_flag_convert flags_a a1 flags_b b1).2 b2 =
        nsos_socket_flag_convert (nsos_socket_flag_convert flags_a a2 flags_b b2).1 a1
          (nsos_socket_flag_convert flags_a a2 flags_b b2).2 b1) ∧
    (∃ a1 b1 a2 b2 flags_a flags_b : Int, int_and a1 a2 ≠ 0 ∧
      (nsos_socket_flag_convert (nsos_socket_flag_convert flags_a a1 flags_b b1).1 a2
          (nsos_socket_flag_convert flags_a a1 flags_b b1).2 b2).2 ≠
        (nsos_socket_flag_convert (nsos_socket_flag_convert flags_a a2 flags_b b2).1 a1
          (nsos_socket_flag_convert flags_a a2 flags_b b2).2 b1).2) := by
  constructor
  · intro a1 b1 a2 b2 fa fb h
    have h21 : int_and a2 a1 = 0 := int_and_symm_zero h
    apply Prod.ext
    · rw [convert_fst, convert_fst, convert_fst, convert_fst]
      refine int_eq_of_testBit_eq fun i => ?_
      simp only [testBit_int_and, testBit_int_not]
      cases fa.testBit i <;> cases a1.testBit i <;> cases a2.testBit i <;> rfl
    · rw [convert_snd, convert_snd, convert_snd, convert_snd, convert_fst, convert_fst,
        int_and_clear_disjoint fa a1 a2 h, int_and_clear_disjoint fa a2 a1 h21]
      split_ifs
      · refine int_eq_of_testBit_eq fun i => ?_
        simp only [testBit_int_or]
        cases fb.testBit i <;> cases b1.testBit i <;> cases b2.testBit i <;> rfl
      · rfl
      · rfl
      · rfl
  · exact ⟨0x03, 0x10, 0x01, 0x20, 0x01, 0, by decide, by decide⟩

/-- Witness of C10 on the disjoint masks `0x02` and `0x20`. -/
theorem convert_order_independent_witness :
    int_and 0x02 0x20 = 0 ∧
      nsos_socket_flag_convert (nsos_socket_flag_convert 0x22 0x02 0 0x01).1 0x20
          (nsos_socket_flag_convert 0x22 0x02 0 0x01).2 0x04 =
        nsos_socket_flag_convert (nsos_socket_flag_convert 0x22 0x20 0 0x04).1 0x02
          (nsos_socket_flag_convert 0x22 0x20 0 0x04).2 0x01 :=
  ⟨by decide, convert_order_independent.1 0x02 0x01 0x20 0x04 0x22 0 (by decide)⟩

/-- C3: address round-trip law.  For each supported family (IPv4, IPv6, Unix-domain,
link-layer) and every valid address value `a` of that family, `encode` succeeds and `decode`
of the encoded bytes for the same family gives `a` back, whatever the byte order of the
fields that are not fixed big-endian. -/
theorem address_roundtrip (e : byte_order) (a : mid_address) (hs : a ≠ .unspec)
    (hv : a.valid) :
    ∃ bytes, encode e a = .ok bytes ∧ decode e bytes a.family = .ok a := by
  cases a with
  | unspec => exact absurd rfl hs
  | inet port addr =>
    obtain ⟨hp, ha⟩ := hv
    refine ⟨_, rfl, ?_⟩
    have hlen : (put_u16 e NSOS_MID_AF_INET ++ put_u16 .big port ++ put_u32 .big addr).length
        = 8 := by
      simp [length_put_u16, length_put_u32]
    have h2 : (put_u16 e NSOS_MID_AF_INET ++ put_u16 .big port ++ put_u32 .big addr).drop 2
        = put_u16 .big port ++ put_u32 .big addr := by
      rw [List.append_assoc, drop_two_put_u16]
    have h4 : (put_u16 e NSOS_MID_AF_INET ++ put_u16 .big port ++ put_u32 .big addr).drop 4
        = put_u32 .big addr ++ [] := by
      rw [drop_add_drop 2 2, h2, drop_two_put_u16, List.append_nil]
    simp only [decode, mid_address.family, hlen, h2, h4, if_true, get_put_u16 _ _ hp,
      get_put_u32 _ _ ha]
  | inet6 port addr scope_id =>
    obtain ⟨hp, hl, -, hsc⟩ := hv
    refine ⟨put_u16 e NSOS_MID_AF_INET6 ++ put_u16 .big port ++ addr ++ put_u32 e scope_id,
      by simp only [encode, hl, if_true], ?_⟩
    have hlen : (put_u16 e NSOS_MID_AF_INET6 ++ put_u16 .big port ++ addr ++
        put_u32 e scope_id).length = 24 := by
      simp [length_put_u16, length_put_u32, hl]
    have h2 : (put_u16 e NSOS_MID_AF_INET6 ++ put_u16 .big port ++ addr ++
        put_u32 e scope_id).drop 2 = put_u16 .big port ++ (addr ++ put_u32 e scope_id) := by
      rw [List.append_assoc, List.append_assoc, drop_two_put_u16]
    have h4 : (put_u16 e NSOS_MID_AF_INET6 ++ put_u16 .big port ++ addr ++
        put_u32 e scope_id).drop 4 = addr ++ put_u32 e scope_id := by
      rw [drop_add_drop 2 2, h2, drop_two_put_u16]
    have h20 : (put_u16 e NSOS_MID_AF_INET6 ++ put_u16 .big port ++ addr ++
        put_u32 e scope_id).drop 20 = put_u32 e scope_id ++ [] := by
      rw [drop_add_drop 4 16, h4, List.drop_left' hl, List.append_nil]
    simp only [decode, mid_address.family, if_neg af_inet6_ne, hlen, h2, h4, h20, if_true,
      get_put_u16 _ _ hp, get_put_u32 _ _ hsc, List.take_left' hl]
  | unix path =>
    obtain ⟨hl, hb⟩ := hv
    refine ⟨put_u16 e NSOS_MID_AF_UNIX ++ path ++
        List.replicate (UNIX_PATH_MAX - path.length) 0,
      by simp only [encode, hl, if_true], ?_⟩
    have hlen : (put_u16 e NSOS_MID_AF_UNIX ++ path ++
        List.replicate (UNIX_PATH_MAX - path.length) 0).length = 2 + UNIX_PATH_MAX := by
      simp only [List.length_append, length_put_u16, List.length_replicate]
      omega
    have h2 : (put_u16 e NSOS_MID_AF_UNIX ++ path ++
        List.replicate (UNIX_PATH_MAX - path.length) 0).drop 2 =
        path ++ List.replicate (UNIX_PATH_MAX - path.length) 0 := by
      rw [List.append_assoc, drop_two_put_u16]
    simp only [decode, mid_address.family, if_neg af_unix_ne.1, if_neg af_unix_ne.2, hlen, h2,
      if_true, takeWhile_nonzero_append path _ fun b hb2 => (hb b hb2).1]
  | packet protocol ifindex hatype pkttype addr =>
    obtain ⟨hp, hi1, hi2, hh, hk, hl, -⟩ := hv
    refine ⟨put_u16 e NSOS_MID_AF_PACKET ++ put_u16 e protocol ++ put_i32 e ifindex ++
          put_u16 e hatype ++ [pkttype % 256, addr.length] ++ addr ++
          List.replicate (SLL_ADDR_MAX - addr.length) 0,
      by simp only [encode, hl, if_true], ?_⟩
    have hlen : (put_u16 e NSOS_MID_AF_PACKET ++ put_u16 e protocol ++ put_i32 e ifindex ++
          put_u16 e hatype ++ [pkttype % 256, addr.length] ++ addr ++
          List.replicate (SLL_ADDR_MAX - addr.length) 0).length = 12 + SLL_ADDR_MAX := by
      simp only [List.length_append, length_put_u16, put_i32, length_put_u32,
        List.length_replicate, List.length_cons, List.length_nil]
      omega
    have h2 : (put_u16 e NSOS_MID_AF_PACKET ++ put_u16 e protocol ++ put_i32 e ifindex ++
          put_u16 e hatype ++ [pkttype % 256, addr.length] ++ addr ++
          List.replicate (SLL_ADDR_MAX - addr.length) 0).drop 2 =
        put_u16 e protocol ++ (put_i32 e ifindex ++ (put_u16 e hatype ++
          (pkttype % 256 :: addr.length :: (addr ++
            List.replicate (SLL_ADDR_MAX - addr.length) 0)))) := by
      simp only [List.append_assoc, drop_two_put_u16, List.cons_append, List.nil_append]
    have h4 : (put_u16 e NSOS_MID_AF_PACKET ++ put_u16 e protocol ++ put_i32 e ifindex ++
          put_u16 e hatype ++ [pkttype % 256, addr.length] ++ addr ++
          List.replicate (SLL_ADDR_MAX - addr.length) 0).drop 4 =
        put_i32 e ifindex ++ (put_u16 e hatype ++
          (pkttype % 256 :: addr.length :: (addr ++
            List.replicate (SLL_ADDR_MAX - addr.length) 0))) := by
      rw [drop_add_drop 2 2, h2, drop_two_put_u16]
    have h8 : (put_u16 e NSOS_MID_AF_PACKET ++ put_u16 e protocol ++ put_i32 e ifindex ++
          put_u16 e hatype ++ [pkttype % 256, addr.length] ++ addr ++
          List.replicate (SLL_ADDR_MAX - addr.length) 0).drop 8 =
        put_u16 e hatype ++
          (pkttype % 256 :: addr.length :: (addr ++
            List.replicate (SLL_ADDR_MAX - addr.length) 0)) := by
      rw [drop_add_drop 4 4, h4, put_i32, drop_four_put_u32]
    have h10 : (put_u16 e NSOS_MID_AF_PACKET ++ put_u16 e protocol ++ put_i32 e ifindex ++
          put_u16 e hatype ++ [pkttype % 256, addr.length] ++ addr ++
          List.replicate (SLL_ADDR_MAX - addr.length) 0).drop 10 =
          pkttype % 256 :: addr.length :: (addr ++
            List.replicate (SLL_ADDR_MAX - addr.length) 0) := by
      rw [drop_add_drop 8 2, h8, drop_two_put_u16]
    have h11 : (put_u16 e NSOS_MID_AF_PACKET ++ put_u16 e protocol ++ put_i32 e ifindex ++
          put_u16 e hatype ++ [pkttype % 256, addr.length] ++ addr ++
          List.replicate (SLL_ADDR_MAX - addr.length) 0).drop 11 =
          addr.length :: (addr ++ List.replicate (SLL_ADDR_MAX - addr.length) 0) := by
      rw [drop_add_drop 10 1, h10]
      rfl
    have h12 : (put_u16 e NSOS_MID_AF_PACKET ++ put_u16 e protocol ++ put_i32 e ifindex ++
          put_u16 e hatype ++ [pkttype % 256, addr.length] ++ addr ++
          List.replicate (SLL_ADDR_MAX - addr.length) 0).drop 12 =
          addr ++ List.replicate (SLL_ADDR_MAX - addr.length) 0 := by
      rw [drop_add_drop 11 1, h11]
      rfl
    simp only [decode, mid_address.family, if_neg af_packet_ne.1, if_neg af_packet_ne.2.1,
      if_neg af_packet_ne.2.2, hlen, h2, h4, h8, h10, h11, h12, List.headD_cons, hl, and_self,
      if_true, get_put_u16 _ _ hp, get_put_u16 _ _ hh, get_put_i32 _ _ hi1 hi2,
      List.take_left' rfl]
    rw [Nat.mod_eq_of_lt hk]

/-- Witness of C3 on a link-layer address with a negative interface index and a six-byte
hardware address. -/
theorem address_roundtrip_witness :
    (mid_address.packet 0x0800 (-2) 1 0 [0, 17, 34, 51, 68, 85]).valid ∧
      ∃ bytes, encode .little (.packet 0x0800 (-2) 1 0 [0, 17, 34, 51, 68, 85]) = .ok bytes ∧
        decode .little bytes NSOS_MID_AF_PACKET =
          .ok (.packet 0x0800 (-2) 1 0 [0, 17, 34, 51, 68, 85]) :=
  ⟨by decide,
    address_roundtrip .little (.packet 0x0800 (-2) 1 0 [0, 17, 34, 51, 68, 85])
      (by decide) (by decide)⟩

/-- C4: encoding the IPv4 address with port 8080 and address 127.0.0.1 gives the eight bytes
of `struct nsos_mid_sockaddr_in`: the 16-bit family field holding `NSOS_MID_AF_INET = 1`,
then the port bytes `0x1F 0x90` (8080 big-endian, which read as a little-endian `uint16_t`
is `0x901F`), then the address bytes `127 0 0 1` (`0x7F000001` big-endian). -/
theorem encode_inet_layout :
    (∀ e, encode e (.inet 8080 0x7F000001) =
      .ok (put_u16 e NSOS_MID_AF_INET ++ [0x1F, 0x90] ++ [127, 0, 0, 1])) ∧
    (∀ e, get_u16 e (put_u16 e NSOS_MID_AF_INET) = 1) ∧
    encode .little (.inet 8080 0x7F000001) = .ok [1, 0, 0x1F, 0x90, 127, 0, 0, 1] ∧
    encode .big (.inet 8080 0x7F000001) = .ok [0, 1, 0x1F, 0x90, 127, 0, 0, 1] ∧
    (∀ e bytes, encode e (.inet 8080 0x7F000001) = .ok bytes → bytes.length = 8) ∧
    get_u16 .big [0x1F, 0x90] = 8080 ∧ get_u16 .little [0x1F, 0x90] = 0x901F ∧
    get_u32 .big [127, 0, 0, 1] = 0x7F000001 := by
  refine ⟨fun e => ?_, fun e => ?_, by decide, by decide, fun e bytes h => ?_, by decide,
    by decide, by decide⟩
  · cases e <;> decide
  · cases e <;> decide
  · cases e
    · have h2 : bytes = [1, 0, 0x1F, 0x90, 127, 0, 0, 1] := (Except.ok.inj h).symm
      rw [h2]
      rfl
    · have h2 : bytes = [0, 1, 0x1F, 0x90, 127, 0, 0, 1] := (Except.ok.inj h).symm
      rw [h2]
      rfl

/-- Witness of C4 on a little-endian host. -/
theorem encode_inet_layout_witness :
    encode .little (.inet 8080 0x7F000001) = .ok [1, 0, 0x1F, 0x90, 127, 0, 0, 1] ∧
      [1, 0, 0x1F, 0x90, 127, 0, 0, 1].length = 8 :=
  ⟨by decide, encode_inet_layout.2.2.2.2.1 .little [1, 0, 0x1F, 0x90, 127, 0, 0, 1] (by decide)⟩

/-- C6: the Unix-domain path bound is a hard limit of `UNIX_PATH_MAX = 108` bytes.  A path of
exactly 108 bytes encodes successfully, into the 110 bytes of `struct nsos_mid_sockaddr_un`
with the path filling `sun_path`; every path of 109 bytes fails with the
address-length-mismatch error; and in general encoding succeeds exactly for the paths of at
most 108 bytes. -/
theorem unix_path_bound :
    (∀ e path, path.length = 108 →
      encode e (.unix path) = .ok (put_u16 e NSOS_MID_AF_UNIX ++ path) ∧
        (put_u16 e NSOS_MID_AF_UNIX ++ path).length = 110) ∧
    (∀ e path, path.length = 109 →
      encode e (.unix path) = .error .address_length_mismatch) ∧
    (∀ e path, (∃ bytes, encode e (.unix path) = .ok bytes) ↔ path.length ≤ 108) ∧
    (∀ e path, encode e (.unix path) = .error .address_length_mismatch ↔ 108 < path.length) := by
  refine ⟨fun e path h => ?_, fun e path h => ?_, fun e path => ?_, fun e path => ?_⟩
  · have hle : path.length ≤ UNIX_PATH_MAX := by rw [h]; decide
    have hz : UNIX_PATH_MAX - path.length = 0 := by rw [h]; rfl
    constructor
    · simp only [encode, if_pos hle, hz, List.replicate_zero, List.append_nil]
    · rw [List.length_append, length_put_u16, h]
  · have hgt : ¬ path.length ≤ UNIX_PATH_MAX := by rw [h]; decide
    simp only [encode, if_neg hgt]
  · by_cases hle : path.length ≤ UNIX_PATH_MAX
    · simp only [encode, if_pos hle]
      exact ⟨fun _ => hle, fun _ => ⟨_, rfl⟩⟩
    · simp only [encode, if_neg hle]
      constructor
      · rintro ⟨bytes, hb⟩
        cases hb
      · intro h
        exact absurd h hle
  · by_cases hle : path.length ≤ UNIX_PATH_MAX
    · simp only [encode, if_pos hle]
      constructor
      · intro h
        cases h
      · intro h
        exact absurd hle (not_le.mpr h)
    · simp only [encode, if_neg hle]
      exact ⟨fun _ => not_le.mp hle, fun _ => trivial⟩

/-- Witness of C6 on the paths of 108 and of 109 bytes `A`. -/
theorem unix_path_bound_witness :
    (List.replicate 108 65).length = 108 ∧ (List.replicate 109 65).length = 109 ∧
      encode .little (.unix (List.replicate 108 65)) = .ok ([6, 0] ++ List.replicate 108 65) ∧
      encode .little (.unix (List.replicate 109 65)) = .error .address_length_mismatch :=
  ⟨by decide, by decide, (unix_path_bound.1 .little (List.replicate 108 65) (by decide)).1,
    unix_path_bound.2.1 .little (List.replicate 109 65) (by decide)⟩

/-- C7: in the Readiness Bridge, update and remove on an unregistered descriptor are an
error.  For every registration table and every descriptor without a registration in it,
`nsos_adapt_poll_update` and `nsos_adapt_poll_remove` give the registration-state error and
leave the table unchanged. -/
theorem poll_unregistered_is_error (table : List nsos_mid_pollfd) (pollfd : nsos_mid_pollfd)
    (h : is_registered table pollfd.fd = false) :
    nsos_adapt_poll_update table pollfd = (.registration_state_error, table) ∧
      nsos_adapt_poll_remove table pollfd = (.registration_state_error, table) := by
  constructor
  · unfold nsos_adapt_poll_update
    rw [h]
    rfl
  · unfold nsos_adapt_poll_remove
    rw [h]
    rfl

/-- Witness of C7: descriptor 7 in a table that holds a registration of descriptor 3 only. -/
theorem poll_unregistered_is_error_witness :
    is_registered [⟨3, 1, 0, 0⟩] 7 = false ∧
      nsos_adapt_poll_update [⟨3, 1, 0, 0⟩] ⟨7, 4, 0, 1⟩ =
        (.registration_state_error, [⟨3, 1, 0, 0⟩]) ∧
      nsos_adapt_poll_remove [⟨3, 1, 0, 0⟩] ⟨7, 4, 0, 1⟩ =
        (.registration_state_error, [⟨3, 1, 0, 0⟩]) :=
  ⟨by decide, poll_unregistered_is_error [⟨3, 1, 0, 0⟩] ⟨7, 4, 0, 1⟩ (by decide)⟩

end Nsos
